import Mathlib

/-!
Verification of the cost-based physical-plan optimizer in
`plan/physical_plan_builder.go` (package `plan`).

The Go source is shallowly embedded as follows.

* `float64` arithmetic is modelled exactly over `ℚ`; the numeric literals
  (`0.8`, `0.9`, ...) are exact rationals.  `math.MaxFloat64` is the exact
  rational value of the largest finite `float64`.
* Go's `uint64(f)` conversion of a nonnegative float truncates toward zero;
  it is modelled by `natFloor`.  (For negative arguments the Go conversion
  is undefined behaviour; `natFloor` then yields `0`.)
* `math.Log2` has no exact rational counterpart, so every definition that
  needs it takes an arbitrary function `log2 : ℚ → ℚ` as a parameter; all
  theorems hold for every such function.
* A Go function returning `(*physicalPlanInfo, error)` returns a
  `GoResult`: the pair of a nullable info and a nullable error, plus a
  distinguished `panicked` outcome that models a Go runtime panic
  (nil-pointer dereference or out-of-range index).
* Code of the repository that lives outside this file (memo accessors
  `getPlanInfo`/`storePlanInfo`, `expression.EvalBool`, datum comparison,
  histogram estimators, `matchProperty` of physical plans, the conversions
  of the children of a node) is either modelled from the spec (marked in
  the doc comment) or passed in as an explicit function parameter, so the
  theorems hold for every behaviour of the missing code.
-/

/-- Column identity. The Go optimizer identifies schema columns by
reference/FromID; we model a column as a bare identifier. -/
structure Col where
  id : ℕ
deriving DecidableEq, Repr

/-- Mirrors the Go `Limit` payload used inside `requiredProperty`
(`Offset`, `Count`, both `uint64`). -/
structure Limit where
  offset : ℕ
  count : ℕ
deriving DecidableEq, Repr

/-- Mirrors Go `columnProp`: a required sort column and its direction. -/
structure columnProp where
  col : Col
  desc : Bool
deriving DecidableEq, Repr

/-- Mirrors Go `requiredProperty`. `sortKeyLen` is an `int` in Go and may
be driven below zero (Projection decrements it), hence `ℤ`. -/
structure requiredProperty where
  props : List columnProp
  sortKeyLen : ℤ
  limit : Option Limit
deriving DecidableEq, Repr

/-- The empty (no-op) required property `&requiredProperty{}`. -/
def emptyProp : requiredProperty := ⟨[], 0, none⟩

/-- Errors are opaque; `errors.Trace` preserves identity, so an error is
just a tag. -/
abbrev GoErr := ℕ

/-- Cost-model constant from the Go `const` block. -/
def netWorkFactor : ℚ := 1.5
/-- Cost-model constant from the Go `const` block. -/
def memoryFactor : ℚ := 5.0
/-- Cost-model constant from the Go `const` block. -/
def selectionFactor : ℚ := 0.8
/-- Cost-model constant from the Go `const` block. -/
def distinctFactor : ℚ := 0.7
/-- Cost-model constant from the Go `const` block. -/
def cpuFactor : ℚ := 0.9
/-- Cost-model constant from the Go `const` block. -/
def aggFactor : ℚ := 0.1
/-- Cost-model constant from the Go `const` block. -/
def joinFactor : ℚ := 0.3

/-- Exact value of `math.MaxFloat64`, the sentinel the optimizer uses for
an unsatisfiable required property. -/
def maxFloat64 : ℚ := 2 ^ 1024 - 2 ^ 971

/-- Go's `uint64(f)` conversion of a float, truncation toward zero
(our uses are all nonnegative, where truncation agrees with `⌊·⌋`). -/
def natFloor (q : ℚ) : ℕ := ⌊q⌋.toNat

/-- Schema lookup, Go `schema.GetIndex(col)`; `none` models `-1`. -/
def getIndex (s : List Col) (c : Col) : Option ℕ :=
  s.findIdx? (fun x => decide (x = c))

/-! ## Statistics and cardinality estimation (`getRowCountByIndexRanges`) -/

/-- Datum kinds the estimator inspects (`types.KindNull`,
`KindMinNotNull`, `KindMaxValue`, plus ordinary values). -/
inductive Datum where
  | null
  | minNotNull
  | maxValue
  | intVal (n : ℤ)
deriving DecidableEq, Repr

/-- Kind test used by `getRowCountByIndexRanges`. -/
def Datum.isNull : Datum → Bool
  | .null => true
  | _ => false

/-- Kind test used by `getRowCountByIndexRanges`. -/
def Datum.isMinNotNull : Datum → Bool
  | .minNotNull => true
  | _ => false

/-- Kind test used by `getRowCountByIndexRanges`. -/
def Datum.isMaxValue : Datum → Bool
  | .maxValue => true
  | _ => false

/-- Modelled from the spec: `Datum.CompareDatum` lives in the external
`util/types` package.  Values compare by the order
null < minNotNull < int values < maxValue; the result is the sign
(-1/0/1) like the Go comparator, and comparison never fails on these
kinds. -/
def compareDatum : Datum → Datum → Except GoErr ℤ
  | .intVal a, .intVal b => .ok (if a < b then -1 else if a = b then 0 else 1)
  | .null, .null => .ok 0
  | .null, _ => .ok (-1)
  | _, .null => .ok 1
  | .minNotNull, .minNotNull => .ok 0
  | .minNotNull, _ => .ok (-1)
  | _, .minNotNull => .ok 1
  | .maxValue, .maxValue => .ok 0
  | .maxValue, _ => .ok 1
  | _, .maxValue => .ok (-1)

/-- Modelled from the spec: the per-column histogram interface
(`EqualRowCount/LessRowCount/GreaterRowCount/BetweenRowCount`) of the
external statistics package, an oracle returning `(int64, error)`. -/
structure ColumnStats where
  equalRowCount : Datum → Except GoErr ℤ
  lessRowCount : Datum → Except GoErr ℤ
  greaterRowCount : Datum → Except GoErr ℤ
  betweenRowCount : Datum → Datum → Except GoErr ℤ

/-- Mirrors `statistics.Table`: total row count (`int64`) and per-offset
column histograms. -/
structure StatsTable where
  count : ℤ
  columns : List ColumnStats

/-- Mirrors `model.IndexColumn` (only the `Offset` field is read). -/
structure IndexColumn where
  offset : ℕ

/-- Mirrors `model.IndexInfo` (only `Columns[i].Offset` is read). -/
structure IndexInfo where
  columns : List IndexColumn

/-- Mirrors `plan.IndexRange`: per-dimension low and high bounds. -/
structure IndexRange where
  lowVal : List Datum
  highVal : List Datum

/-- Outcome of processing one index range inside the estimator loop. -/
inductive RangeStep where
  | full
  | contrib (q : ℚ)

/-- The body of the `for _, indexRange := range indexRanges` loop of
`getRowCountByIndexRanges` for a single range: picks the last bound
dimension `i = len(LowVal)-1`, short-circuits on a `(NULL, +∞)` bound
there, otherwise dispatches to the histogram estimators and scales the
estimate by `count/table.Count` and by the 1/100 dampening factor once
per leading dimension.  A Go index-out-of-range panic is modelled as the
distinguished error `panicErr`. -/
def rangeStep (tbl : StatsTable) (info : IndexInfo) (r : IndexRange) :
    Except GoErr RangeStep :=
  let i := r.lowVal.length - 1
  match r.lowVal[i]?, r.highVal[i]? with
  | some l, some h =>
    match info.columns[i]? with
    | none => .error panicErr
    | some _ic =>
      if l.isNull && h.isMaxValue then .ok .full
      else
        match tbl.columns[_ic.offset]? with
        | none => .error panicErr
        | some cs =>
          let rowCount : Except GoErr ℤ :=
            if l.isMinNotNull then
              match cs.equalRowCount .null with
              | .error e => .error e
              | .ok nullCount =>
                if h.isMaxValue then .ok (tbl.count - nullCount)
                else
                  match cs.lessRowCount h with
                  | .error e => .error e
                  | .ok lessCount => .ok (lessCount - nullCount)
            else if h.isMaxValue then cs.greaterRowCount l
            else
              match compareDatum l h with
              | .error e => .error e
              | .ok cmp =>
                if cmp = 0 then cs.equalRowCount l else cs.betweenRowCount l h
          match rowCount with
          | .error e => .error e
          | .ok rc =>
            .ok (.contrib ((tbl.count : ℚ) / (tbl.count : ℚ) * (rc : ℚ) / 100 ^ i))
  | _, _ => .error panicErr
where
  /-- Distinguished error modelling a Go runtime panic inside the
  estimator (index out of range); never produced on well-formed input. -/
  panicErr : GoErr := 1000000

/-- The accumulation loop of `getRowCountByIndexRanges`; `none` means a
range short-circuited to the full table count. -/
def grcLoop (tbl : StatsTable) (info : IndexInfo) :
    List IndexRange → ℚ → Except GoErr (Option ℚ)
  | [], acc => .ok (some acc)
  | r :: rs, acc =>
    match rangeStep tbl info r with
    | .error e => .error e
    | .ok .full => .ok none
    | .ok (.contrib q) => grcLoop tbl info rs (acc + q)

/-- Embedding of Go `getRowCountByIndexRanges`: sums the per-range
estimates, then applies the 1000-row stability floor and, whenever the
total exceeds the table count, replaces it with one third of the table
count. -/
def getRowCountByIndexRanges (tbl : StatsTable) (info : IndexInfo)
    (ranges : List IndexRange) : Except GoErr ℕ :=
  match grcLoop tbl info ranges 0 with
  | .error e => .error e
  | .ok none => .ok tbl.count.toNat
  | .ok (some totalCount) =>
    let t1 : ℚ := if natFloor totalCount < 1000 then (1000 : ℚ) else totalCount
    let t2 : ℚ := if (tbl.count : ℚ) < t1 then (tbl.count : ℚ) / 3 else t1
    .ok (natFloor t2)

/-- Whether a range triggers the full-table short-circuit: its last bound
dimension is `(NULL, +∞)`. -/
def fullLast (r : IndexRange) : Bool :=
  let i := r.lowVal.length - 1
  match r.lowVal[i]?, r.highVal[i]? with
  | some l, some h => l.isNull && h.isMaxValue
  | _, _ => false

/-! ## Plans, plan info, results, memo -/

/-- Aggregation phase tags (`StreamedAgg`, `FinalAgg`, `CompleteAgg`). -/
inductive AggType where
  | streamedAgg
  | finalAgg
  | completeAgg
deriving DecidableEq, Repr

/-- Expressions, as far as the optimizer inspects them: a pass-through
column reference, a computed scalar function, a constant (whose
compile-time boolean evaluation — external `expression.EvalBool`,
modelled from the spec — either fails with an error or yields a value),
or a correlated column (which, like constants, falls into the `default`
branch of Projection's switch). -/
inductive Expression where
  | column (c : Col)
  | scalarFunction (id : ℕ)
  | constant (evalErr : Option GoErr) (value : Bool)
  | correlatedColumn (c : Col)
deriving DecidableEq, Repr

/-- Mirrors Go `ByItems` (sort key of a `Sort` plan). -/
structure ByItem where
  expr : Expression
  desc : Bool
deriving DecidableEq, Repr

/-- Mirrors Go `AggregationFunction`, as far as the converter inspects
it: whether `GetMode() == expression.FinalMode` and `IsDistinct()`. -/
structure AggFunc where
  isFinal : Bool
  isDistinct : Bool
deriving DecidableEq, Repr

/-- Kind (plus operator-specific payload) of a physical plan node. -/
inductive PlanTag where
  /-- Mirrors `PhysicalTableScan`. `aggPushSchema` models the external
  `addAggregation` pushdown API (modelled from the spec): the schema a
  pushed-down partial aggregation would produce, `[]` when the scan does
  not support the pushdown. -/
  | tableScan (aggPushSchema : List Col)
  /-- Mirrors `PhysicalIndexScan`; `aggPushSchema` as for `tableScan`. -/
  | indexScan (aggPushSchema : List Col)
  /-- Mirrors `PhysicalDummyScan` (zero rows, zero cost). -/
  | dummyScan
  /-- Mirrors `PhysicalHashJoin`. -/
  | hashJoin
  /-- Mirrors `PhysicalHashSemiJoin` with its `WithAux`, condition lists and
  `Anti` payload. -/
  | hashSemiJoin (withAux : Bool) (eqConds leftConds rightConds otherConds : List Expression)
      (anti : Bool)
  /-- Mirrors `Sort` used as a physical enforcement node. -/
  | sortNode (byItems : List ByItem) (execLimit : Option Limit)
  /-- Mirrors `Limit` used as a physical enforcement node. -/
  | limitNode (l : Limit)
  /-- Mirrors `PhysicalAggregation`. -/
  | aggNode (t : AggType) (aggFuncs : List AggFunc) (groupByItems : List Expression)
      (hasGby : Bool)
  /-- Mirrors `Projection` (logical node used as physical). -/
  | projectionNode (exprs : List Expression)
  /-- Mirrors `PhysicalApply`. -/
  | applyNode
  /-- Mirrors the `Cache` node inserted by `addCachePlan`. -/
  | cacheTag
  /-- Any other operator; payload distinguishes instances. -/
  | otherNode (id : ℕ)
deriving DecidableEq, Repr

/-- A physical plan tree: kind, output schema, correlation flag,
children. -/
inductive PhysPlan where
  | mk (tag : PlanTag) (schema : List Col) (correlated : Bool) (children : List PhysPlan)

/-- Kind of a physical plan node. -/
def PhysPlan.tag : PhysPlan → PlanTag
  | .mk t _ _ _ => t

/-- Output schema (`GetSchema`). -/
def PhysPlan.schema : PhysPlan → List Col
  | .mk _ s _ _ => s

/-- Correlation flag (`IsCorrelated`). -/
def PhysPlan.correlated : PhysPlan → Bool
  | .mk _ _ c _ => c

/-- Child list (`GetChildren`). -/
def PhysPlan.children : PhysPlan → List PhysPlan
  | .mk _ _ _ cs => cs

/-- Mirrors `SetChildren`: replace the children. -/
def PhysPlan.withChildren : PhysPlan → List PhysPlan → PhysPlan
  | .mk t s c _, cs => .mk t s c cs

/-- Mirrors `SetSchema`: replace the schema. -/
def PhysPlan.withSchema : PhysPlan → List Col → PhysPlan
  | .mk t _ c cs, s => .mk t s c cs

/-- Mirrors Go `physicalPlanInfo`: nullable chosen plan, scalar cost,
estimated row count. -/
structure physicalPlanInfo where
  p : Option PhysPlan
  cost : ℚ
  count : ℕ

/-- Result of a Go conversion function returning
`(*physicalPlanInfo, error)`: both components are nullable, and
`panicked` models a runtime panic (nil-pointer dereference). -/
inductive GoResult where
  | panicked
  | returned (info : Option physicalPlanInfo) (err : Option GoErr)

/-- Cost of the plan inside a `GoResult`, when one was returned. -/
def GoResult.costOf : GoResult → Option ℚ
  | .returned (some i) _ => some i.cost
  | _ => none

/-- Row count of the plan inside a `GoResult`, when one was returned. -/
def GoResult.countOf : GoResult → Option ℕ
  | .returned (some i) _ => some i.count
  | _ => none

/-- Modelled from the spec: the per-node memo is a map from
`requiredProperty` (structural equality) to the stored
`*physicalPlanInfo`; a stored nil pointer is an entry whose value is
`none`.  Newer entries shadow older ones. -/
abbrev Memo := List (requiredProperty × Option physicalPlanInfo)

/-- Modelled from the spec: `getPlanInfo` looks the property up by
structural equality; a stored nil pointer behaves like a miss. -/
def lookupMemo (m : Memo) (prop : requiredProperty) : Option physicalPlanInfo :=
  match m.find? (fun e => decide (e.1 = prop)) with
  | some e => e.2
  | none => none

/-- Modelled from the spec: `storePlanInfo` records the result for the
property; it never fails. -/
def storePlanInfo (m : Memo) (prop : requiredProperty) (i : Option physicalPlanInfo) :
    Memo :=
  (prop, i) :: m

/-! ## Shared conversion helpers -/

/-- Embedding of Go `sortCost`; `log2` stands for `math.Log2`. -/
def sortCost (log2 : ℚ → ℚ) (cnt : ℕ) : ℚ :=
  if cnt = 0 then 0
  else (cnt : ℚ) * log2 (cnt : ℚ) * cpuFactor + memoryFactor * (cnt : ℚ)

/-- Embedding of Go `addPlanToResponse`: copy the parent, make the
info's plan its only child (a nil child pointer is modelled as an absent
child), keep cost and count. -/
def addPlanToResponse (parent : PhysPlan) (info : physicalPlanInfo) : physicalPlanInfo :=
  ⟨some (parent.withChildren (match info.p with | some c => [c] | none => [])),
    info.cost, info.count⟩

/-- Embedding of Go `enforceProperty`: add a `Sort` (or bare `Limit`)
above the plan when the property demands it, charge the sort cost, and
clip the count to the limit. -/
def enforceProperty (log2 : ℚ → ℚ) (prop : requiredProperty)
    (info : physicalPlanInfo) : physicalPlanInfo :=
  match info.p with
  | none => info
  | some ip =>
    let info1 :=
      if prop.props ≠ [] then
        let items := prop.props.map (fun c => ByItem.mk (.column c.col) c.desc)
        let sortPlan := PhysPlan.mk (.sortNode items prop.limit) ip.schema ip.correlated []
        let i1 := addPlanToResponse sortPlan info
        let cnt := match prop.limit with
          | some l => l.offset + l.count
          | none => i1.count
        { i1 with cost := i1.cost + sortCost log2 cnt }
      else
        match prop.limit with
        | some l =>
          let limitPlan := PhysPlan.mk (.limitNode l) ip.schema ip.correlated []
          addPlanToResponse limitPlan info
        | none => info
    match prop.limit with
    | some l => if l.count < info1.count then { info1 with count := l.count } else info1
    | none => info1

/-- Embedding of Go `removeLimit`. -/
def removeLimit (prop : requiredProperty) : requiredProperty :=
  ⟨prop.props, prop.sortKeyLen, none⟩

/-- Embedding of Go `convertLimitOffsetToCount`. -/
def convertLimitOffsetToCount (prop : requiredProperty) : requiredProperty :=
  ⟨prop.props, prop.sortKeyLen,
    prop.limit.map (fun l => ⟨0, l.offset + l.count⟩)⟩

/-- Embedding of Go `limitProperty` (the argument may be a nil
`*Limit`). -/
def limitProperty (l : Option Limit) : requiredProperty := ⟨[], 0, l⟩

/-! ## Join conversion -/

/-- Join kinds the converter dispatches on; `innerJoin` stands for the
`default` branch of the switch. -/
inductive JoinType where
  | semiJoin
  | semiJoinWithAux
  | leftOuterJoin
  | rightOuterJoin
  | innerJoin
deriving DecidableEq, Repr

/-- The fields of a logical `Join` node that the semi conversion and the
dispatcher read. -/
structure JoinNode where
  joinType : JoinType
  schema : List Col
  leftSchema : List Col
  eqConds : List Expression
  leftConds : List Expression
  rightConds : List Expression
  otherConds : List Expression
  anti : Bool
  correlated : Bool

/-- The `allLeft` test of `convert2PhysicalPlanSemi`: every requested
column is found in the left child's schema. -/
def semiAllLeft (p : JoinNode) (prop : requiredProperty) : Bool :=
  prop.props.all (fun c => (getIndex p.leftSchema c.col).isSome)

/-- The property `convert2PhysicalPlanSemi` forwards to its left child:
the full property when every requested column is on the left, the empty
property otherwise, with the limit stripped for a plain `SemiJoin`. -/
def semiLeftProp (p : JoinNode) (prop : requiredProperty) : requiredProperty :=
  let lProp0 := if semiAllLeft p prop then prop else emptyProp
  if p.joinType = .semiJoin then removeLimit lProp0 else lProp0

/-- Embedding of Go `Join.convert2PhysicalPlanSemi`.  The external
`PhysicalHashSemiJoin.matchProperty` (not part of this file's source) is
the parameter `mpSemi`; the children's `convert2PhysicalPlan` are the
parameters `lConv`/`rConv`.  After `matchProperty` the count is
overwritten: multiplied by `selectionFactor` for `SemiJoin` only,
`lInfo.count` unchanged otherwise (in particular for
`SemiJoinWithAux`). -/
def semiConvert (log2 : ℚ → ℚ)
    (mpSemi : PhysPlan → requiredProperty → physicalPlanInfo → physicalPlanInfo →
      physicalPlanInfo)
    (lConv rConv : requiredProperty → GoResult)
    (p : JoinNode) (prop : requiredProperty) : GoResult :=
  let allLeft := semiAllLeft p prop
  match lConv (semiLeftProp p prop) with
  | .panicked => .panicked
  | .returned lI lE =>
    match lE with
    | some e => .returned none (some e)
    | none =>
      match rConv emptyProp with
      | .panicked => .panicked
      | .returned rI rE =>
        match rE with
        | some e => .returned none (some e)
        | none =>
          match lI with
          | none => .panicked
          | some li =>
            match rI with
            | none => .panicked
            | some ri =>
              let corr := (p.correlated
                  || (match li.p with | some pl => pl.correlated | none => false))
                  || (match ri.p with | some pr => pr.correlated | none => false)
              let joinPlan : PhysPlan :=
                .mk (.hashSemiJoin (p.joinType = .semiJoinWithAux) p.eqConds
                      p.leftConds p.rightConds p.otherConds p.anti)
                  p.schema corr []
              let r0 := mpSemi joinPlan prop li ri
              let r1 :=
                if p.joinType = .semiJoin then
                  { r0 with count := natFloor ((li.count : ℚ) * selectionFactor) }
                else
                  { r0 with count := li.count }
              let r2 :=
                if ¬ allLeft then enforceProperty log2 prop r1
                else if p.joinType = .semiJoin then
                  enforceProperty log2 (limitProperty prop.limit) r1
                else r1
              .returned (some r2) none

/-- The `switch p.JoinType` of Go `Join.convert2PhysicalPlan`: the
strategy bodies (`convert2PhysicalPlanSemi/Left/Right`) are the
parameters `semiF`/`leftF`/`rightF` (the boolean passed to
`leftF`/`rightF` is Go's `innerJoin` flag), so the dispatcher's theorems
hold for every strategy behaviour.  A strategy error returns early
(`Sum.inl`); the `default` case evaluates both the left-driven and the
right-driven candidate and keeps the strictly cheaper right-driven one,
dereferencing both infos (`panicked` on a nil candidate). -/
def joinStrategyStep (semiF : requiredProperty → GoResult)
    (leftF rightF : requiredProperty → Bool → GoResult)
    (p : JoinNode) (prop : requiredProperty) :
    GoResult ⊕ Option physicalPlanInfo :=
  match p.joinType with
  | .semiJoin | .semiJoinWithAux =>
    match semiF prop with
    | .panicked => .inl .panicked
    | .returned _ (some e) => .inl (.returned none (some e))
    | .returned i none => .inr i
  | .leftOuterJoin =>
    match leftF prop false with
    | .panicked => .inl .panicked
    | .returned _ (some e) => .inl (.returned none (some e))
    | .returned i none => .inr i
  | .rightOuterJoin =>
    match rightF prop false with
    | .panicked => .inl .panicked
    | .returned _ (some e) => .inl (.returned none (some e))
    | .returned i none => .inr i
  | .innerJoin =>
    match leftF prop true with
    | .panicked => .inl .panicked
    | .returned _ (some e) => .inl (.returned none (some e))
    | .returned lI none =>
      match rightF prop true with
      | .panicked => .inl .panicked
      | .returned _ (some e) => .inl (.returned none (some e))
      | .returned rI none =>
        match rI, lI with
        | some rv, some lv => .inr (if rv.cost < lv.cost then some rv else some lv)
        | _, _ => .inl .panicked

/-- Embedding of the memoization wrapper of Go
`Join.convert2PhysicalPlan`: memo lookup, the dispatch step, and the
unconditional store of the result (errors return early without
storing). -/
def joinConvert (semiF : requiredProperty → GoResult)
    (leftF rightF : requiredProperty → Bool → GoResult)
    (p : JoinNode) (prop : requiredProperty) (m : Memo) : GoResult × Memo :=
  match lookupMemo m prop with
  | some i => (.returned (some i) none, m)
  | none =>
    match joinStrategyStep semiF leftF rightF p prop with
    | .inl g => (g, m)
    | .inr info => (.returned info none, storePlanInfo m prop info)

/-! ## Aggregation conversion -/

/-- The fields of a logical `Aggregation` node the converter reads. -/
structure AggNode where
  schema : List Col
  correlated : Bool
  aggFuncs : List AggFunc
  groupByItems : List Expression
  groupByCols : List Col

/-- The `for _, pro := range prop.props` loop of
`convert2PhysicalPlanStream`: maps each requested column to its group-by
position (`getGbyColIndex`, an equality search over `groupByCols`,
modelled from the spec), marks it as a sort key and appends it to the
derived child property; `none` models the `idx == -1` early return. -/
def aggStreamPropsLoop (p : AggNode) :
    List columnProp → List Bool → List columnProp →
    Option (List columnProp × List Bool)
  | [], isSortKey, acc => some (acc, isSortKey)
  | pro :: rest, isSortKey, acc =>
    match getIndex p.groupByCols pro.col with
    | none => none
    | some idx =>
      aggStreamPropsLoop p rest (isSortKey.set idx true)
        (acc ++ [⟨p.groupByCols[idx]?.getD pro.col, pro.desc⟩])

/-- The tail of the derived stream property: group-by columns that were
not requested are appended as an unordered don't-care suffix. -/
def aggTailProps (gbyCols : List Col) (isSortKey : List Bool) : List columnProp :=
  gbyCols.enum.filterMap (fun ic =>
    if isSortKey[ic.1]?.getD false then none else some ⟨ic.2, false⟩)

/-- Embedding of Go `Aggregation.convert2PhysicalPlanStream`: bails out
with cost `math.MaxFloat64` when an aggregate is in final mode, when a
group-by item is not a bare column, or when a requested column is not a
group-by column; otherwise asks the child for the derived property and
charges a linear CPU cost, scaling the count by `aggFactor`. -/
def aggStream (childConv : requiredProperty → GoResult)
    (p : AggNode) (prop : requiredProperty) : GoResult :=
  if p.aggFuncs.any (fun f => f.isFinal) then
    .returned (some ⟨none, maxFloat64, 0⟩) none
  else
    let aggPlan : PhysPlan :=
      .mk (.aggNode .streamedAgg p.aggFuncs p.groupByItems (p.groupByItems ≠ []))
        p.schema p.correlated []
    if p.groupByCols.length ≠ p.groupByItems.length then
      .returned (some ⟨none, maxFloat64, 0⟩) none
    else
      match aggStreamPropsLoop p prop.props
          (List.replicate p.groupByCols.length false) [] with
      | none => .returned (some ⟨none, maxFloat64, 0⟩) none
      | some (acc, isSortKey) =>
        let newProp : requiredProperty :=
          ⟨acc ++ aggTailProps p.groupByCols isSortKey, (acc.length : ℤ), none⟩
        match childConv newProp with
        | .panicked => .panicked
        | .returned _ (some e) => .returned none (some e)
        | .returned ci none =>
          match ci with
          | none => .panicked
          | some civ =>
            let i1 := addPlanToResponse aggPlan civ
            let i2 := { i1 with cost := i1.cost + (i1.count : ℚ) * cpuFactor }
            let i3 := { i2 with count := natFloor ((i2.count : ℚ) * aggFactor) }
            .returned (some i3) none

/-- The partial-aggregation pushdown schema the external `addAggregation`
API would return for a plan (modelled from the spec: only distributable
scans support the pushdown; `[]` means unsupported). `isSome` also models
the `physicalDistSQLPlan` type assertion. -/
def pushSchemaOf : PlanTag → Option (List Col)
  | .tableScan s => some s
  | .indexScan s => some s
  | _ => none

/-- Embedding of Go `Aggregation.convert2PhysicalPlanFinalHash`: attach a
pushed partial aggregation to the distributable child
(`x.addAggregation`, modelled from the spec via `pushSchemaOf`), fail
(`nil`) when the returned schema is empty, otherwise build the final
merge aggregation with cost forced to zero. -/
def aggFinalHash (p : AggNode) (scan : PhysPlan) (ci : physicalPlanInfo) :
    Option physicalPlanInfo :=
  let corr := p.correlated ||
    (match ci.p with | some pl => pl.correlated | none => false)
  let aggPlan : PhysPlan :=
    .mk (.aggNode .finalAgg p.aggFuncs p.groupByItems (p.groupByItems ≠ []))
      p.schema corr []
  match pushSchemaOf scan.tag with
  | none => none
  | some schema =>
    if schema = [] then none
    else
      let scan2 := scan.withSchema schema
      let i1 := addPlanToResponse aggPlan { ci with p := some scan2 }
      some { i1 with count := natFloor ((i1.count : ℚ) * aggFactor), cost := 0 }

/-- Embedding of Go `Aggregation.convert2PhysicalPlanCompleteHash`: a
single complete hash aggregation charging a memory cost proportional to
the input count and scaling the count by `aggFactor`. -/
def aggCompleteHash (p : AggNode) (ci : physicalPlanInfo) : physicalPlanInfo :=
  let corr := p.correlated ||
    (match ci.p with | some pl => pl.correlated | none => false)
  let aggPlan : PhysPlan :=
    .mk (.aggNode .completeAgg p.aggFuncs p.groupByItems (p.groupByItems ≠ []))
      p.schema corr []
  let i1 := addPlanToResponse aggPlan ci
  let i2 := { i1 with cost := i1.cost + (i1.count : ℚ) * memoryFactor }
  { i2 with count := natFloor ((i2.count : ℚ) * aggFactor) }

/-- Embedding of Go `Aggregation.convert2PhysicalPlanHash`: optimize the
child under the empty property, then build the two-phase (final) hash
aggregation when no aggregate is distinct and the child supports
pushdown, falling back to the complete hash aggregation. -/
def aggHash (childConv : requiredProperty → GoResult) (p : AggNode) : GoResult :=
  match childConv emptyProp with
  | .panicked => .panicked
  | .returned _ (some e) => .returned none (some e)
  | .returned ci none =>
    let distinct := p.aggFuncs.any (fun f => f.isDistinct)
    match ci with
    | none => .panicked
    | some civ =>
      if ¬ distinct then
        match civ.p with
        | some scan =>
          if (pushSchemaOf scan.tag).isSome then
            match aggFinalHash p scan civ with
            | some i => .returned (some i) none
            | none => .returned (some (aggCompleteHash p civ)) none
          else .returned (some (aggCompleteHash p civ)) none
        | none => .returned (some (aggCompleteHash p civ)) none
      else .returned (some (aggCompleteHash p civ)) none

/-- Embedding of Go `Aggregation.convert2PhysicalPlan`: memo lookup; the
hash strategy is evaluated ONLY when the required property has no
ordering columns; the stream strategy is always evaluated (its error is
dropped by the Go code); the stream result replaces the hash result when
its cost is strictly lower (or when there is no hash result); limit
enforcement wraps the winner, which is stored. -/
def aggConvert (log2 : ℚ → ℚ) (childConv : requiredProperty → GoResult)
    (p : AggNode) (prop : requiredProperty) (m : Memo) : GoResult × Memo :=
  match lookupMemo m prop with
  | some i => (.returned (some i) none, m)
  | none =>
    let limit := prop.limit
    let hashStep : GoResult ⊕ Option physicalPlanInfo :=
      if prop.props = [] then
        match aggHash childConv p with
        | .panicked => .inl .panicked
        | .returned _ (some e) => .inl (.returned none (some e))
        | .returned hi none => .inr hi
      else .inr none
    match hashStep with
    | .inl g => (g, m)
    | .inr planInfo0 =>
      match aggStream childConv p (removeLimit prop) with
      | .panicked => (.panicked, m)
      | .returned si _se =>
        let chosen : Option (Option physicalPlanInfo) :=
          match planInfo0 with
          | none => some si
          | some pv =>
            match si with
            | none => none
            | some sv => some (if sv.cost < pv.cost then some sv else some pv)
        match chosen with
        | none => (.panicked, m)
        | some planInfo =>
          match planInfo with
          | none => (.panicked, m)
          | some pv2 =>
            let fi := enforceProperty log2 (limitProperty limit) pv2
            (.returned (some fi) none, storePlanInfo m prop (some fi))

/-! ## Projection conversion -/

/-- The fields of a logical `Projection` node the converter reads. -/
structure ProjNode where
  schema : List Col
  childSchema : List Col
  exprs : List Expression
  correlated : Bool

/-- Result of Projection's `loop` over the requested columns. -/
inductive ProjLoopRes where
  | failed
  | stopped
  | finished (props : List columnProp) (skl : ℤ)

/-- The `loop:` of Go `Projection.convert2PhysicalPlan`: map each
requested column through the projection's expression list; a bare column
passes through (deduplicated via `usedCols`), a `ScalarFunction` aborts
the whole property (`stopped`), anything else decrements `sortKeyLen`.
`failed` models the Go index panics on a column absent from a schema. -/
def projLoop (p : ProjNode) :
    List columnProp → List Bool → List columnProp → ℤ → ProjLoopRes
  | [], _, acc, skl => .finished acc skl
  | c :: rest, used, acc, skl =>
    match getIndex p.schema c.col with
    | none => .failed
    | some i =>
      match p.exprs[i]? with
      | none => .failed
      | some (.column v) =>
        match getIndex p.childSchema v with
        | none => .failed
        | some ci =>
          if used[ci]?.getD false then projLoop p rest used acc skl
          else projLoop p rest (used.set ci true) (acc ++ [⟨v, c.desc⟩]) skl
      | some (.scalarFunction _) => .stopped
      | some _ => projLoop p rest used acc (skl - 1)

/-- Embedding of Go `Projection.convert2PhysicalPlan`: memo lookup;
derive the child property through pass-through columns; a requested
column mapped to a `ScalarFunction` returns cost `math.MaxFloat64`
immediately (and does NOT store the result); otherwise convert the
child, wrap with the projection and store. -/
def projConvert (childConv : requiredProperty → GoResult)
    (p : ProjNode) (prop : requiredProperty) (m : Memo) : GoResult × Memo :=
  match lookupMemo m prop with
  | some i => (.returned (some i) none, m)
  | none =>
    match projLoop p prop.props (List.replicate p.childSchema.length false) []
        prop.sortKeyLen with
    | .failed => (.panicked, m)
    | .stopped => (.returned (some ⟨none, maxFloat64, 0⟩) none, m)
    | .finished acc skl =>
      let newProp : requiredProperty := ⟨acc, skl, prop.limit⟩
      match childConv newProp with
      | .panicked => (.panicked, m)
      | .returned _ (some e) => (.returned none (some e), m)
      | .returned ci none =>
        match ci with
        | none => (.panicked, m)
        | some civ =>
          let projPlan : PhysPlan :=
            .mk (.projectionNode p.exprs) p.schema p.correlated []
          let i1 := addPlanToResponse projPlan civ
          (.returned (some i1) none, storePlanInfo m prop (some i1))

/-! ## DataSource conversion -/

/-- The first parent of the `DataSource`, as far as the converter
inspects it: a `Selection` (with its condition list), some other node, or
no parent at all (in which case `need2ConsiderIndex`'s `p.parents[0]`
would panic). -/
inductive DSParent where
  | selParent (conditions : List Expression)
  | nonSelParent

/-- The fields of a logical `DataSource` node the dummy-scan and
dispatch logic read. -/
structure DataSourceNode where
  schema : List Col
  parents0 : Option DSParent

/-- Outcome of scanning the parent selection's conditions for a
compile-time constant. -/
inductive ScanRes where
  | errFound (e : GoErr)
  | falseFound
  | noDecision

/-- The condition scan of `tryToConvert2DummyScan`: walk the conditions
in order; for each `*expression.Constant`, `EvalBool` it (modelled from
the spec as the constant's stored outcome); a failing evaluation aborts
with its error, a false value decides for the dummy scan, anything else
is skipped. -/
def scanConds : List Expression → ScanRes
  | [] => .noDecision
  | .constant (some er) _ :: _ => .errFound er
  | .constant none false :: _ => .falseFound
  | .constant none true :: rest => scanConds rest
  | _ :: rest => scanConds rest

/-- The zero-row, zero-cost plan info built around `PhysicalDummyScan`
(fresh node, correlation flag false, no children, schema of the data
source). -/
def dummyScanInfo (p : DataSourceNode) : physicalPlanInfo :=
  ⟨some (.mk .dummyScan p.schema false []), 0, 0⟩

/-- Embedding of Go `DataSource.tryToConvert2DummyScan`: when the first
parent is a `Selection` holding a constant condition that evaluates to
false, build the dummy info, store it for the requested property and
return it; a failing constant evaluation returns its error; otherwise
`(nil, nil)`. -/
def tryToConvert2DummyScan (p : DataSourceNode) (prop : requiredProperty)
    (m : Memo) : GoResult × Memo :=
  match p.parents0 with
  | some (.selParent conds) =>
    match scanConds conds with
    | .errFound e => (.returned none (some e), m)
    | .falseFound =>
      (.returned (some (dummyScanInfo p)) none,
        storePlanInfo m prop (some (dummyScanInfo p)))
    | .noDecision => (.returned none none, m)
  | _ => (.returned none none, m)

/-- Embedding of Go `DataSource.need2ConsiderIndex`; `none` models the
panic of `p.parents[0]` on an empty parent list. -/
def need2ConsiderIndex (p : DataSourceNode) (prop : requiredProperty) :
    Option Bool :=
  match p.parents0 with
  | none => none
  | some (.selParent _) => some true
  | some .nonSelParent => some (prop.props ≠ [])

/-- The `for _, index := range indices` loop of
`DataSource.convert2PhysicalPlan`: convert each index candidate
(`convert2IndexScan` is the oracle `isF`), propagate its error, keep the
cheaper candidate.  `Sum.inl` is an early return. -/
def dsIndexLoop (isF : requiredProperty → IndexInfo → GoResult)
    (prop : requiredProperty) :
    List IndexInfo → Option physicalPlanInfo → GoResult ⊕ Option physicalPlanInfo
  | [], info => .inr info
  | ix :: rest, info =>
    match isF prop ix with
    | .panicked => .inl .panicked
    | .returned ii err =>
      match err with
      | some e => .inl (.returned none (some e))
      | none =>
        match info with
        | none => dsIndexLoop isF prop rest ii
        | some iv =>
          match ii with
          | none => .inl .panicked
          | some iiv =>
            dsIndexLoop isF prop rest (if iiv.cost < iv.cost then ii else info)

/-- The table-scan candidate step of `DataSource.convert2PhysicalPlan`
(`convert2TableScan` is the oracle `tsF`: its body depends on external
context/client/txn code absent from this file's source). -/
def dsTableStep (tsF : requiredProperty → GoResult) (includeTableScan : Bool)
    (prop : requiredProperty) : GoResult ⊕ Option physicalPlanInfo :=
  if includeTableScan then
    match tsF prop with
    | .panicked => .inl .panicked
    | .returned _ (some e) => .inl (.returned none (some e))
    | .returned ti none => .inr ti
  else .inr none

/-- The `!includeTableScan || p.need2ConsiderIndex(prop)` guard and index
loop of `DataSource.convert2PhysicalPlan` (note the short-circuit: with
table scans unavailable, `need2ConsiderIndex` is never evaluated). -/
def dsIndexStep (isF : requiredProperty → IndexInfo → GoResult)
    (p : DataSourceNode) (prop : requiredProperty)
    (indices : List IndexInfo) (includeTableScan : Bool)
    (info0 : Option physicalPlanInfo) : GoResult ⊕ Option physicalPlanInfo :=
  if ¬ includeTableScan then dsIndexLoop isF prop indices info0
  else
    match need2ConsiderIndex p prop with
    | none => .inl .panicked
    | some b =>
      if b then dsIndexLoop isF prop indices info0 else .inr info0

/-- Embedding of Go `DataSource.convert2PhysicalPlan`: memo lookup, the
dummy-scan short-circuit (whose non-nil result or error returns early),
then the table-scan candidate and the index candidates; the final
candidate is stored unconditionally.  `avail` is the external
`availableIndices` result `(indices, includeTableScan)`. -/
def dsConvert (tsF : requiredProperty → GoResult)
    (isF : requiredProperty → IndexInfo → GoResult)
    (avail : List IndexInfo × Bool)
    (p : DataSourceNode) (prop : requiredProperty) (m : Memo) : GoResult × Memo :=
  match lookupMemo m prop with
  | some i => (.returned (some i) none, m)
  | none =>
    match tryToConvert2DummyScan p prop m with
    | (.returned none none, _) =>
      match dsTableStep tsF avail.2 prop with
      | .inl g => (g, m)
      | .inr info0 =>
        match dsIndexStep isF p prop avail.1 avail.2 info0 with
        | .inl g => (g, m)
        | .inr infoF => (.returned infoF none, storePlanInfo m prop infoF)
    | other => other

/-! ## Union conversion -/

/-- A `Union` child: its schema and its `convert2PhysicalPlan`. -/
structure UChild where
  schema : List Col
  conv : requiredProperty → GoResult

/-- The derived per-branch property of `Union.convert2PhysicalPlan`:
limit widened to `(0, offset+count)`, each requested column translated
into the branch's own column at the same schema position; `none` models
the Go index panics on a missing column. -/
def unionChildProp (pSchema childSchema : List Col) (prop : requiredProperty) :
    Option requiredProperty :=
  let base := convertLimitOffsetToCount prop
  match prop.props.mapM (fun c =>
      match getIndex pSchema c.col with
      | none => none
      | some idx =>
        match childSchema[idx]? with
        | none => none
        | some cc => some (columnProp.mk cc c.desc)) with
  | none => none
  | some newProps => some ⟨newProps, base.sortKeyLen, base.limit⟩

/-- The `for _, child := range p.GetChildren()` loop of
`Union.convert2PhysicalPlan`.  Faithful to the Go statement order: the
running count is increased by `info.count` BEFORE the `err != nil`
check, so a child that returns `(nil, err)` makes the loop dereference a
nil info — modelled as `panicked`. -/
def unionLoop (pSchema : List Col) (prop : requiredProperty) :
    List UChild → List physicalPlanInfo → ℕ →
    GoResult ⊕ (List physicalPlanInfo × ℕ)
  | [], acc, cnt => .inr (acc, cnt)
  | ch :: rest, acc, cnt =>
    match unionChildProp pSchema ch.schema prop with
    | none => .inl .panicked
    | some np =>
      match ch.conv np with
      | .panicked => .inl .panicked
      | .returned io eo =>
        match io with
        | none => .inl .panicked
        | some iv =>
          match eo with
          | some e => .inl (.returned none (some e))
          | none => unionLoop pSchema prop rest (acc ++ [iv]) (cnt + iv.count)

/-- Embedding of Go `Union.convert2PhysicalPlan`: memo lookup, convert
every branch under its translated property, combine through the node's
`matchProperty` (external, the oracle `mp`), enforce the limit, overwrite
the count with the summed branch counts, store. -/
def unionConvert (log2 : ℚ → ℚ)
    (mp : requiredProperty → List physicalPlanInfo → physicalPlanInfo)
    (pSchema : List Col) (children : List UChild)
    (prop : requiredProperty) (m : Memo) : GoResult × Memo :=
  match lookupMemo m prop with
  | some i => (.returned (some i) none, m)
  | none =>
    let limit := prop.limit
    match unionLoop pSchema prop children [] 0 with
    | .inl g => (g, m)
    | .inr (infos, cnt) =>
      let i1 := mp prop infos
      let i2 := enforceProperty log2 (limitProperty limit) i1
      let i3 := { i2 with count := cnt }
      (.returned (some i3) none, storePlanInfo m prop (some i3))

/-! ## Apply conversion -/

mutual
/-- Embedding of Go `addCachePlan`: leave leaves alone; wrap every
non-correlated child in a fresh `Cache` node (taking the child's schema)
and recurse into correlated children. -/
def addCachePlan : PhysPlan → PhysPlan
  | .mk tag sch corr [] => .mk tag sch corr []
  | .mk tag sch corr (c :: cs) => .mk tag sch corr (addCacheChildren (c :: cs))

/-- The `for _, child := range p.GetChildren()` loop of `addCachePlan`. -/
def addCacheChildren : List PhysPlan → List PhysPlan
  | [] => []
  | c :: cs =>
    (if c.correlated then addCachePlan c
     else PhysPlan.mk .cacheTag c.schema false [c]) :: addCacheChildren cs
end

/-- The fields of a logical `Apply` node the converter reads;
`innerSchema` is the schema of the second (inner) child. -/
structure ApplyNode where
  schema : List Col
  innerSchema : List Col
  correlated : Bool

/-- Embedding of Go `Apply.convert2PhysicalPlan`: memo lookup; when any
requested column lives in the inner child's schema, return cost
`math.MaxFloat64` without converting either child (and without storing);
otherwise convert the inner child under the empty property — the Go code
rewrites `innerInfo.p` through `addCachePlan` BEFORE checking the
inner error, so an inner error result `(nil, err)` panics — then the
outer child under the limit-less property, compose, re-apply the limit
and store. -/
def applyConvert (log2 : ℚ → ℚ) (innerConv outerConv : requiredProperty → GoResult)
    (p : ApplyNode) (prop : requiredProperty) (m : Memo) : GoResult × Memo :=
  match lookupMemo m prop with
  | some i => (.returned (some i) none, m)
  | none =>
    let allFromOuter := prop.props.all (fun c => (getIndex p.innerSchema c.col).isNone)
    if ¬ allFromOuter then
      (.returned (some ⟨none, maxFloat64, 0⟩) none, m)
    else
      match innerConv emptyProp with
      | .panicked => (.panicked, m)
      | .returned innerOpt innerErr =>
        match innerOpt with
        | none => (.panicked, m)
        | some innerInfo =>
          match innerInfo.p with
          | none => (.panicked, m)
          | some ip =>
            let cachedInner := addCachePlan ip
            match innerErr with
            | some e => (.returned none (some e), m)
            | none =>
              let np : PhysPlan := .mk .applyNode p.schema p.correlated []
              let limit := prop.limit
              match outerConv (removeLimit prop) with
              | .panicked => (.panicked, m)
              | .returned oOpt oErr =>
                match oErr with
                | some e => (.returned none (some e), m)
                | none =>
                  match oOpt with
                  | none => (.panicked, m)
                  | some oi =>
                    let i1 := addPlanToResponse np oi
                    let withInner :=
                      fun (pl : PhysPlan) => pl.withChildren (pl.children ++ [cachedInner])
                    let i2 := { i1 with p := i1.p.map withInner }
                    let i3 := enforceProperty log2 (limitProperty limit) i2
                    (.returned (some i3) none, storePlanInfo m prop (some i3))

/-! ## Concrete instances used by counterexamples and witnesses -/

/-- A concrete stand-in for `math.Log2` (the theorems hold for every
choice). -/
def fixLog2 : ℚ → ℚ := fun _ => 1

/-- Concrete column 0. -/
def fixC0 : Col := ⟨0⟩

/-- Concrete column 1. -/
def fixC1 : Col := ⟨1⟩

/-- Histogram oracle whose estimators all return 0 rows. -/
def zeroStats : ColumnStats :=
  ⟨fun _ => .ok 0, fun _ => .ok 0, fun _ => .ok 0, fun _ _ => .ok 0⟩

/-- Histogram oracle whose equality estimator returns `n` rows (within
the spec's contract whenever `0 ≤ n ≤` the table count). -/
def eqStats (n : ℤ) : ColumnStats :=
  ⟨fun _ => .ok n, fun _ => .ok 0, fun _ => .ok 0, fun _ _ => .ok 0⟩

/-- A 10000-row table whose first column estimates 5000 rows for an
equality predicate (selectivity one half). -/
def fixTblA : StatsTable := ⟨10000, [eqStats 5000]⟩

/-- A 600-row table whose first column estimates 10 rows for an equality
predicate. -/
def fixTblB : StatsTable := ⟨600, [eqStats 10]⟩

/-- A 10000-row table for the two-column index: the second column
estimates 2000 rows for an equality predicate. -/
def fixTblC : StatsTable := ⟨10000, [zeroStats, eqStats 2000]⟩

/-- A one-column index at offset 0. -/
def fixIdxOne : IndexInfo := ⟨[⟨0⟩]⟩

/-- A two-column index at offsets 0 and 1. -/
def fixIdxTwo : IndexInfo := ⟨[⟨0⟩, ⟨1⟩]⟩

/-- The single-dimension equality range `[5, 5]`. -/
def fixRangeEq5 : IndexRange := ⟨[.intVal 5], [.intVal 5]⟩

/-- The single-dimension full range `(NULL, +∞)`. -/
def fixRangeFull : IndexRange := ⟨[.null], [.maxValue]⟩

/-- A two-dimension range covering `(NULL, +∞)` on the LEADING dimension
but an equality `[5, 5]` on the last dimension. -/
def fixRangeLeadFull : IndexRange := ⟨[.null, .intVal 5], [.maxValue, .intVal 5]⟩

/-- Aggregation node: no aggregate functions, `GROUP BY c0` where `c0`
is a bare column. -/
def fixAggNode : AggNode := ⟨[fixC0], false, [], [.column fixC0], [fixC0]⟩

/-- Child conversion oracle for the aggregation: cheap (cost 0) under
the empty property, expensive (cost 1000) under any ordering property;
10 rows either way. -/
def fixAggConv : requiredProperty → GoResult := fun q =>
  if q.props = [] then .returned (some ⟨none, 0, 10⟩) none
  else .returned (some ⟨none, 1000, 10⟩) none

/-- The property requesting order by `c0` ascending. -/
def fixPropC0 : requiredProperty := ⟨[⟨fixC0, false⟩], 1, none⟩

/-- Value produced by the stream strategy on the fixture aggregation:
child cost 1000 plus 10·cpuFactor, count 10·aggFactor. -/
def fixStreamInfo : physicalPlanInfo :=
  ⟨some (.mk (.aggNode .streamedAgg [] [.column fixC0] true) [fixC0] false []), 1009, 1⟩

/-- Value produced by the hash strategy on the fixture aggregation:
child cost 0 plus 10·memoryFactor, count 10·aggFactor. -/
def fixHashInfo : physicalPlanInfo :=
  ⟨some (.mk (.aggNode .completeAgg [] [.column fixC0] true) [fixC0] false []), 50, 1⟩

/-- Concrete `matchProperty` oracle for the semi join (the claims hold
for every oracle; counterexamples fix one). -/
def fixMpSemi : PhysPlan → requiredProperty → physicalPlanInfo → physicalPlanInfo →
    physicalPlanInfo := fun _ _ l r => ⟨none, l.cost + r.cost, 0⟩

/-- A semi join carrying the auxiliary existence marker
(`SemiJoinWithAux`). -/
def fixJoinAux : JoinNode := ⟨.semiJoinWithAux, [fixC0], [fixC0], [], [], [], [], false, false⟩

/-- A plain semi join (`SemiJoin`). -/
def fixJoinSemi : JoinNode := ⟨.semiJoin, [fixC0], [fixC0], [], [], [], [], false, false⟩

/-- Left-child oracle: 100 estimated rows at cost 0. -/
def fixLConv : requiredProperty → GoResult := fun _ => .returned (some ⟨none, 0, 100⟩) none

/-- Right-child oracle: 7 estimated rows at cost 0. -/
def fixRConv : requiredProperty → GoResult := fun _ => .returned (some ⟨none, 0, 7⟩) none

/-- Projection computing a scalar function into its only output
column. -/
def fixProj : ProjNode := ⟨[fixC0], [], [.scalarFunction 0], false⟩

/-- Child conversion oracle returning `(nil, nil)`; the theorems using
it never reach the child. -/
def fixChildConvNone : requiredProperty → GoResult := fun _ => .returned none none

/-- A data source whose parent selection carries a true-valued and then
a false-valued compile-time constant. -/
def fixDS : DataSourceNode :=
  ⟨[fixC0], some (.selParent [.constant none true, .constant none false])⟩

/-- Index-scan conversion oracle returning `(nil, nil)`. -/
def fixIsF : requiredProperty → IndexInfo → GoResult := fun _ _ => .returned none none

/-- An `Apply` whose inner (second) child exposes column `c0`. -/
def fixApply : ApplyNode := ⟨[fixC0], [fixC0], false⟩

/-- A child conversion that fails: `(nil, err 7)`. -/
def fixErrConv : requiredProperty → GoResult := fun _ => .returned none (some 7)

/-- A union branch whose conversion fails with `(nil, err 7)`. -/
def fixUChild : UChild := ⟨[fixC0], fixErrConv⟩

/-- Concrete `matchProperty` oracle for the union. -/
def fixMpUnion : requiredProperty → List physicalPlanInfo → physicalPlanInfo :=
  fun _ _ => ⟨none, 0, 0⟩

/-- Left/right join strategy oracle returning `(nil, nil)` (never
reached in the witnesses that use it). -/
def fixLRConv : requiredProperty → Bool → GoResult := fun _ _ => .returned none none

/-! ## Helper lemmas -/

/-- A freshly stored memo entry is what `getPlanInfo` then returns. -/
theorem lookupMemo_store (m : Memo) (prop : requiredProperty)
    (i : Option physicalPlanInfo) :
    lookupMemo (storePlanInfo m prop i) prop = i := by
  simp [lookupMemo, storePlanInfo, List.find?]

/-- The function `enforceProperty` never changes the estimated row count when the
property carries no limit. -/
theorem enforceProperty_count_nolimit (log2 : ℚ → ℚ) (pr : requiredProperty)
    (i : physicalPlanInfo) (h : pr.limit = none) :
    (enforceProperty log2 pr i).count = i.count := by
  unfold enforceProperty
  cases hip : i.p with
  | none => rfl
  | some ip =>
    simp only [h]
    split
    · simp [addPlanToResponse]
    · rfl

/-! ## C8 — sort cost -/

/-- C8: for every row count `n`, the sort cost equals
`n·log2(n)·cpuFactor + n·memoryFactor` when `n > 0`, and equals `0` when
`n = 0`. -/
theorem c8_sortCost_formula (log2 : ℚ → ℚ) (n : ℕ) :
    sortCost log2 0 = 0 ∧
    (0 < n →
      sortCost log2 n = (n : ℚ) * log2 (n : ℚ) * cpuFactor + (n : ℚ) * memoryFactor) := by
  constructor
  · simp [sortCost]
  · intro hn
    have hne : n ≠ 0 := Nat.pos_iff_ne_zero.mp hn
    simp [sortCost, hne, mul_comm]

/-- Witness for C8 at `n = 3` and a concrete `log2`. -/
theorem c8_sortCost_formula_witness :
    sortCost fixLog2 0 = 0 ∧ 0 < 3 ∧
    sortCost fixLog2 3 = (3 : ℚ) * fixLog2 3 * cpuFactor + (3 : ℚ) * memoryFactor :=
  ⟨(c8_sortCost_formula fixLog2 3).1, by decide,
    (c8_sortCost_formula fixLog2 3).2 (by decide)⟩

/-! ## C9 — Apply short-circuits on inner-schema ordering columns -/

/-- C9: for every Apply node and every required property whose ordering
columns include at least one column of the inner (second) child's
schema, `convert2PhysicalPlan` returns a plan info with cost
`math.MaxFloat64` without converting either child — the result holds for
every inner and outer conversion behaviour and leaves the memo
untouched. -/
theorem c9_apply_inner_ordering_infeasible (log2 : ℚ → ℚ)
    (innerConv outerConv : requiredProperty → GoResult)
    (p : ApplyNode) (prop : requiredProperty) (m : Memo)
    (hmiss : lookupMemo m prop = none)
    (hinner : ∃ c ∈ prop.props, (getIndex p.innerSchema c.col).isSome) :
    applyConvert log2 innerConv outerConv p prop m =
      (.returned (some ⟨none, maxFloat64, 0⟩) none, m) := by
  obtain ⟨c, hc, hsome⟩ := hinner
  have hall : prop.props.all (fun c => (getIndex p.innerSchema c.col).isNone) = false := by
    rw [List.all_eq_false]
    refine ⟨c, hc, ?_⟩
    simp only [Option.isNone_iff_eq_none]
    exact Option.isSome_iff_ne_none.mp hsome
  simp [applyConvert, hmiss, hall]

/-- Witness for C9: ordering by `c0`, which the inner child exposes. -/
theorem c9_apply_inner_ordering_infeasible_witness :
    lookupMemo ([] : Memo) fixPropC0 = none ∧
    (∃ c ∈ fixPropC0.props, (getIndex fixApply.innerSchema c.col).isSome) ∧
    applyConvert fixLog2 fixChildConvNone fixChildConvNone fixApply fixPropC0 [] =
      (.returned (some ⟨none, maxFloat64, 0⟩) none, []) :=
  ⟨rfl, ⟨⟨fixC0, false⟩, by decide, by decide⟩,
    c9_apply_inner_ordering_infeasible fixLog2 fixChildConvNone fixChildConvNone
      fixApply fixPropC0 [] rfl ⟨⟨fixC0, false⟩, by decide, by decide⟩⟩

/-! ## C10 — error propagation in Union and Apply -/

/-- C10: the claim states that `Union.convert2PhysicalPlan` and
`Apply.convert2PhysicalPlan` propagate a child conversion error without
first reading any field of the absent child plan info.  The code does
the opposite: `Union` executes `count += info.count` and `Apply`
executes `innerInfo.p = addCachePlan(innerInfo.p)` BEFORE the
`err != nil` check.  At a child conversion returning `(nil, err 7)` both
conversions therefore hit a nil-pointer dereference (modelled as
`panicked`) instead of returning the propagated error. -/
theorem c10_union_apply_deref_before_err_check :
    unionConvert fixLog2 fixMpUnion [fixC0] [fixUChild] emptyProp [] = (.panicked, []) ∧
    applyConvert fixLog2 fixErrConv fixChildConvNone fixApply emptyProp [] =
      (.panicked, []) := by
  exact ⟨rfl, rfl⟩

/-! ## C4 — semi-join row-count estimate -/

/-- C4 (counterexample): for a semi join WITH the auxiliary existence
marker (`SemiJoinWithAux`) the converted plan's count is the left
child's count unchanged (here 100), not the claimed
`count · selectionFactor` (which would be 80): the code multiplies by
the selection factor only for plain `SemiJoin`. -/
theorem c4_counterexample :
    (semiConvert fixLog2 fixMpSemi fixLConv fixRConv fixJoinAux emptyProp).countOf =
      some 100 ∧
    natFloor ((100 : ℚ) * selectionFactor) = 80 ∧ (100 : ℕ) ≠ 80 := by
  refine ⟨rfl, ?_, by decide⟩
  norm_num [natFloor, selectionFactor]
  decide

/-- C4 (amended): inside `convert2PhysicalPlanSemi`, with successful
child conversions and no limit in the required property, the converted
plan's count equals the left (driving) side's count multiplied by the
selection factor exactly when the join is a plain `SemiJoin`; for
`SemiJoinWithAux` (and any other kind reaching this function) the left
count is propagated unchanged. -/
theorem c4_semi_count (log2 : ℚ → ℚ)
    (mpSemi : PhysPlan → requiredProperty → physicalPlanInfo → physicalPlanInfo →
      physicalPlanInfo)
    (lConv rConv : requiredProperty → GoResult)
    (p : JoinNode) (prop : requiredProperty) (li ri : physicalPlanInfo)
    (hl : lConv (semiLeftProp p prop) = .returned (some li) none)
    (hr : rConv emptyProp = .returned (some ri) none)
    (hlim : prop.limit = none) :
    ∃ res, semiConvert log2 mpSemi lConv rConv p prop = .returned (some res) none ∧
      res.count = if p.joinType = .semiJoin
        then natFloor ((li.count : ℚ) * selectionFactor) else li.count := by
  unfold semiConvert
  rw [hl, hr]
  refine ⟨_, rfl, ?_⟩
  by_cases hA : semiAllLeft p prop = true <;>
    by_cases hS : p.joinType = .semiJoin <;>
      simp [hA, hS, enforceProperty_count_nolimit, hlim, limitProperty]

/-- Witness for C4 at a plain `SemiJoin` with 100 left rows: count
becomes `⌊100 · 0.8⌋`. -/
theorem c4_semi_count_witness :
    fixLConv (semiLeftProp fixJoinSemi emptyProp) = .returned (some ⟨none, 0, 100⟩) none ∧
    fixRConv emptyProp = .returned (some ⟨none, 0, 7⟩) none ∧
    emptyProp.limit = none ∧
    (∃ res, semiConvert fixLog2 fixMpSemi fixLConv fixRConv fixJoinSemi emptyProp =
        .returned (some res) none ∧
      res.count = if fixJoinSemi.joinType = .semiJoin
        then natFloor (((⟨none, 0, 100⟩ : physicalPlanInfo).count : ℚ) * selectionFactor)
        else (⟨none, 0, 100⟩ : physicalPlanInfo).count) :=
  ⟨rfl, rfl, rfl,
    c4_semi_count fixLog2 fixMpSemi fixLConv fixRConv fixJoinSemi emptyProp
      ⟨none, 0, 100⟩ ⟨none, 0, 7⟩ rfl rfl rfl⟩

/-! ## C7 — constant-false selection gives a dummy scan -/

/-- When no constant condition fails to evaluate and some constant
condition evaluates to false, the condition scan of
`tryToConvert2DummyScan` decides for the dummy scan. -/
theorem scanConds_falseFound :
    ∀ (conds : List Expression),
      (∀ e ∈ conds, ∀ er b, e ≠ Expression.constant (some er) b) →
      (∃ e ∈ conds, e = Expression.constant none false) →
      scanConds conds = .falseFound := by
  intro conds
  induction conds with
  | nil =>
    intro _ hfalse
    obtain ⟨e, he, _⟩ := hfalse
    cases he
  | cons e rest ih =>
    intro hok hfalse
    have hok' : ∀ e ∈ rest, ∀ er b, e ≠ Expression.constant (some er) b :=
      fun e' he' => hok e' (List.mem_cons_of_mem _ he')
    cases e with
    | constant oe b =>
      cases oe with
      | some er => exact absurd rfl (hok _ (List.mem_cons_self _ _) er b)
      | none =>
        cases b with
        | false => rfl
        | true =>
          have hfalse' : ∃ e ∈ rest, e = Expression.constant none false := by
            obtain ⟨e₀, he₀, heq₀⟩ := hfalse
            rcases List.mem_cons.mp he₀ with h | h
            · rw [h] at heq₀; cases heq₀
            · exact ⟨e₀, h, heq₀⟩
          simpa [scanConds] using ih hok' hfalse'
    | column c =>
      have hfalse' : ∃ e ∈ rest, e = Expression.constant none false := by
        obtain ⟨e₀, he₀, heq₀⟩ := hfalse
        rcases List.mem_cons.mp he₀ with h | h
        · rw [h] at heq₀; cases heq₀
        · exact ⟨e₀, h, heq₀⟩
      simpa [scanConds] using ih hok' hfalse'
    | scalarFunction i =>
      have hfalse' : ∃ e ∈ rest, e = Expression.constant none false := by
        obtain ⟨e₀, he₀, heq₀⟩ := hfalse
        rcases List.mem_cons.mp he₀ with h | h
        · rw [h] at heq₀; cases heq₀
        · exact ⟨e₀, h, heq₀⟩
      simpa [scanConds] using ih hok' hfalse'
    | correlatedColumn c =>
      have hfalse' : ∃ e ∈ rest, e = Expression.constant none false := by
        obtain ⟨e₀, he₀, heq₀⟩ := hfalse
        rcases List.mem_cons.mp he₀ with h | h
        · rw [h] at heq₀; cases heq₀
        · exact ⟨e₀, h, heq₀⟩
      simpa [scanConds] using ih hok' hfalse'

/-- C7: for every required property (any ordering, any limit), if the
DataSource's parent is a Selection containing a compile-time-constant
condition that evaluates to false (and whose constant conditions all
evaluate without error), `convert2PhysicalPlan` returns the zero-row,
zero-cost `PhysicalDummyScan` info — a bare dummy node, no enforced sort
or limit — and stores that result in the memo for the requested
property; the scan oracles are never consulted. -/
theorem c7_constant_false_dummy_scan (tsF : requiredProperty → GoResult)
    (isF : requiredProperty → IndexInfo → GoResult) (avail : List IndexInfo × Bool)
    (p : DataSourceNode) (prop : requiredProperty) (m : Memo)
    (conds : List Expression)
    (hpar : p.parents0 = some (.selParent conds))
    (hmiss : lookupMemo m prop = none)
    (hok : ∀ e ∈ conds, ∀ er b, e ≠ Expression.constant (some er) b)
    (hfalse : ∃ e ∈ conds, e = Expression.constant none false) :
    dsConvert tsF isF avail p prop m =
      (.returned (some (dummyScanInfo p)) none,
        storePlanInfo m prop (some (dummyScanInfo p))) := by
  have hsc := scanConds_falseFound conds hok hfalse
  simp [dsConvert, hmiss, tryToConvert2DummyScan, hpar, hsc]

/-- Witness for C7: a selection with conditions
`[constant true, constant false]` over an empty memo. -/
theorem c7_constant_false_dummy_scan_witness :
    fixDS.parents0 =
      some (.selParent [.constant none true, .constant none false]) ∧
    lookupMemo ([] : Memo) fixPropC0 = none ∧
    dsConvert fixChildConvNone fixIsF ([], true) fixDS fixPropC0 [] =
      (.returned (some (dummyScanInfo fixDS)) none,
        storePlanInfo [] fixPropC0 (some (dummyScanInfo fixDS))) :=
  ⟨rfl, rfl,
    c7_constant_false_dummy_scan fixChildConvNone fixIsF ([], true) fixDS fixPropC0 []
      [.constant none true, .constant none false] rfl rfl
      (by intro e he er b heq; subst heq; simp at he)
      ⟨.constant none false, by simp, rfl⟩⟩

/-! ## C5 — projection and computed sort columns -/

/-- When every requested column maps through the projection (valid
schema index, expression present, pass-through columns present in the
child schema) and at least one of them maps to a `ScalarFunction`, the
projection's loop stops with `canPassSort = false`, whatever the loop
state. -/
theorem projLoop_stopped (p : ProjNode) :
    ∀ (props : List columnProp),
      (∀ c ∈ props, ∃ i, getIndex p.schema c.col = some i ∧
        ∃ e, p.exprs[i]? = some e ∧
          (∀ v, e = Expression.column v → (getIndex p.childSchema v).isSome)) →
      (∃ c ∈ props, ∃ i, getIndex p.schema c.col = some i ∧
        ∃ sid, p.exprs[i]? = some (.scalarFunction sid)) →
      ∀ used acc skl, projLoop p props used acc skl = .stopped := by
  intro props
  induction props with
  | nil =>
    intro _ hsf _ _ _
    obtain ⟨c, hc, _⟩ := hsf
    cases hc
  | cons c rest ih =>
    intro hall hsf used acc skl
    obtain ⟨i, hi, e, he, hv⟩ := hall c (List.mem_cons_self _ _)
    have hall' : ∀ c' ∈ rest, ∃ i, getIndex p.schema c'.col = some i ∧
        ∃ e, p.exprs[i]? = some e ∧
          (∀ v, e = Expression.column v → (getIndex p.childSchema v).isSome) :=
      fun c' hc' => hall c' (List.mem_cons_of_mem _ hc')
    have transfer : (∀ sid, e ≠ .scalarFunction sid) →
        ∃ c' ∈ rest, ∃ i, getIndex p.schema c'.col = some i ∧
          ∃ sid, p.exprs[i]? = some (.scalarFunction sid) := by
      intro hne
      obtain ⟨c₀, hc₀, i₀, hi₀, sid, he₀⟩ := hsf
      rcases List.mem_cons.mp hc₀ with h | h
      · subst h
        rw [hi] at hi₀
        injection hi₀ with h'
        subst h'
        rw [he] at he₀
        injection he₀ with h''
        exact absurd h'' (hne sid)
      · exact ⟨c₀, h, i₀, hi₀, sid, he₀⟩
    cases e with
    | scalarFunction sid =>
      simp only [projLoop, hi, he]
    | column v =>
      obtain ⟨ci, hci⟩ := Option.isSome_iff_exists.mp (hv v rfl)
      simp only [projLoop, hi, he, hci]
      have hsf' := transfer (by intro sid h; cases h)
      split
      · exact ih hall' hsf' _ _ _
      · exact ih hall' hsf' _ _ _
    | constant oe b =>
      simp only [projLoop, hi, he]
      exact ih hall' (transfer (by intro sid h; cases h)) _ _ _
    | correlatedColumn v =>
      simp only [projLoop, hi, he]
      exact ih hall' (transfer (by intro sid h; cases h)) _ _ _

/-- C5: for every projection node and required property (memo miss, all
requested columns resolvable through the projection), if any requested
sort column maps to a computed expression — a `ScalarFunction` — rather
than a direct pass-through column reference, the conversion returns a
plan info of cost `math.MaxFloat64` (the whole property is
unsatisfiable), for every child conversion behaviour, and the memo is
left unchanged. -/
theorem c5_projection_scalar_infeasible (childConv : requiredProperty → GoResult)
    (p : ProjNode) (prop : requiredProperty) (m : Memo)
    (hmiss : lookupMemo m prop = none)
    (hall : ∀ c ∈ prop.props, ∃ i, getIndex p.schema c.col = some i ∧
      ∃ e, p.exprs[i]? = some e ∧
        (∀ v, e = Expression.column v → (getIndex p.childSchema v).isSome))
    (hsf : ∃ c ∈ prop.props, ∃ i, getIndex p.schema c.col = some i ∧
      ∃ sid, p.exprs[i]? = some (.scalarFunction sid)) :
    projConvert childConv p prop m =
      (.returned (some ⟨none, maxFloat64, 0⟩) none, m) := by
  have h := projLoop_stopped p prop.props hall hsf
    (List.replicate p.childSchema.length false) [] prop.sortKeyLen
  simp [projConvert, hmiss, h]

/-- Witness for C5: a projection whose only output column is a scalar
function, ordering requested on that column. -/
theorem c5_projection_scalar_infeasible_witness :
    lookupMemo ([] : Memo) fixPropC0 = none ∧
    (∃ c ∈ fixPropC0.props, ∃ i, getIndex fixProj.schema c.col = some i ∧
      ∃ sid, fixProj.exprs[i]? = some (.scalarFunction sid)) ∧
    projConvert fixChildConvNone fixProj fixPropC0 [] =
      (.returned (some ⟨none, maxFloat64, 0⟩) none, []) :=
  ⟨rfl, ⟨⟨fixC0, false⟩, by decide, 0, rfl, 0, rfl⟩,
    c5_projection_scalar_infeasible fixChildConvNone fixProj fixPropC0 [] rfl
      (by
        intro c hc
        simp only [fixPropC0, List.mem_singleton] at hc
        subst hc
        exact ⟨0, rfl, .scalarFunction 0, rfl, by intro v h; cases h⟩)
      ⟨⟨fixC0, false⟩, by decide, 0, rfl, 0, rfl⟩⟩

/-! ## C6 — memoization -/

/-- Early returns of the index loop are panics or error returns, never
ordinary infos. -/
theorem dsIndexLoop_inl (isF : requiredProperty → IndexInfo → GoResult)
    (prop : requiredProperty) :
    ∀ (l : List IndexInfo) (info : Option physicalPlanInfo) (g : GoResult),
      dsIndexLoop isF prop l info = .inl g →
      g = .panicked ∨ ∃ e, g = .returned none (some e) := by
  intro l
  induction l with
  | nil =>
    intro info g h
    exact Sum.noConfusion h
  | cons ix rest ih =>
    intro info g h
    simp only [dsIndexLoop] at h
    repeat' split at h
    all_goals first
      | exact Or.inl (Sum.inl.inj h).symm
      | exact Or.inr ⟨_, (Sum.inl.inj h).symm⟩
      | exact ih _ _ h

/-- Early returns of the table-scan step are panics or error returns. -/
theorem dsTableStep_inl (tsF : requiredProperty → GoResult) (incl : Bool)
    (prop : requiredProperty) (g : GoResult)
    (h : dsTableStep tsF incl prop = .inl g) :
    g = .panicked ∨ ∃ e, g = .returned none (some e) := by
  unfold dsTableStep at h
  repeat' split at h
  all_goals first
    | exact Or.inl (Sum.inl.inj h).symm
    | exact Or.inr ⟨_, (Sum.inl.inj h).symm⟩
    | exact Sum.noConfusion h

/-- Early returns of the index step are panics or error returns. -/
theorem dsIndexStep_inl (isF : requiredProperty → IndexInfo → GoResult)
    (p : DataSourceNode) (prop : requiredProperty) (indices : List IndexInfo)
    (incl : Bool) (info0 : Option physicalPlanInfo) (g : GoResult)
    (h : dsIndexStep isF p prop indices incl info0 = .inl g) :
    g = .panicked ∨ ∃ e, g = .returned none (some e) := by
  unfold dsIndexStep at h
  repeat' split at h
  all_goals first
    | exact Or.inl (Sum.inl.inj h).symm
    | exact dsIndexLoop_inl _ _ _ _ _ h
    | exact Sum.noConfusion h

/-- The dummy-scan attempt has exactly three outcomes: no decision, an
evaluation error, or the stored-and-returned dummy info. -/
theorem tryDummy_cases (p : DataSourceNode) (prop : requiredProperty) (m : Memo) :
    tryToConvert2DummyScan p prop m = (.returned none none, m) ∨
    (∃ e, tryToConvert2DummyScan p prop m = (.returned none (some e), m)) ∨
    tryToConvert2DummyScan p prop m =
      (.returned (some (dummyScanInfo p)) none,
        storePlanInfo m prop (some (dummyScanInfo p))) := by
  rcases hp : p.parents0 with _ | pr
  · exact Or.inl (by simp [tryToConvert2DummyScan, hp])
  · rcases pr with conds | _
    · rcases hs : scanConds conds with e | _ | _
      · exact Or.inr (Or.inl ⟨e, by simp [tryToConvert2DummyScan, hp, hs]⟩)
      · exact Or.inr (Or.inr (by simp [tryToConvert2DummyScan, hp, hs]))
      · exact Or.inl (by simp [tryToConvert2DummyScan, hp, hs])
    · exact Or.inl (by simp [tryToConvert2DummyScan, hp])

/-- Whenever `DataSource.convert2PhysicalPlan` returns an info with no
error, the memo it leaves behind maps the property to exactly that
info. -/
theorem dsConvert_stores (tsF : requiredProperty → GoResult)
    (isF : requiredProperty → IndexInfo → GoResult) (avail : List IndexInfo × Bool)
    (p : DataSourceNode) (prop : requiredProperty) (m m₁ : Memo)
    (i : physicalPlanInfo)
    (h : dsConvert tsF isF avail p prop m = (.returned (some i) none, m₁)) :
    lookupMemo m₁ prop = some i := by
  rcases hl : lookupMemo m prop with _ | j
  · rcases tryDummy_cases p prop m with htd | ⟨e, htd⟩ | htd
    · simp only [dsConvert, hl, htd] at h
      rcases hts : dsTableStep tsF avail.2 prop with g | info0
      · simp only [hts] at h
        rcases dsTableStep_inl _ _ _ _ hts with hg | ⟨e, hg⟩ <;> subst hg <;> simp at h
      · simp only [hts] at h
        rcases his : dsIndexStep isF p prop avail.1 avail.2 info0 with g | infoF
        · simp only [his] at h
          rcases dsIndexStep_inl _ _ _ _ _ _ _ his with hg | ⟨e, hg⟩ <;>
            subst hg <;> simp at h
        · simp only [his] at h
          injection h with h1 h2
          injection h1 with h3 _
          subst h3
          rw [← h2]
          exact lookupMemo_store m prop (some i)
    · simp only [dsConvert, hl, htd] at h
      simp at h
    · simp only [dsConvert, hl, htd] at h
      injection h with h1 h2
      injection h1 with h3 _
      injection h3 with h4
      rw [← h2, h4]
      exact lookupMemo_store m prop (some i)
  · simp only [dsConvert, hl] at h
    injection h with h1 h2
    injection h1 with h3 _
    injection h3 with h4
    rw [← h2, hl, h4]

/-- Early returns of the join dispatch step are panics or error
returns. -/
theorem joinStrategyStep_inl (semiF : requiredProperty → GoResult)
    (leftF rightF : requiredProperty → Bool → GoResult)
    (p : JoinNode) (prop : requiredProperty) (g : GoResult)
    (h : joinStrategyStep semiF leftF rightF p prop = .inl g) :
    g = .panicked ∨ ∃ e, g = .returned none (some e) := by
  unfold joinStrategyStep at h
  repeat' split at h
  all_goals first
    | exact Or.inl (Sum.inl.inj h).symm
    | exact Or.inr ⟨_, (Sum.inl.inj h).symm⟩
    | exact Sum.noConfusion h

/-- Whenever `Join.convert2PhysicalPlan` returns an info with no error,
the memo it leaves behind maps the property to exactly that info. -/
theorem joinConvert_stores (semiF : requiredProperty → GoResult)
    (leftF rightF : requiredProperty → Bool → GoResult)
    (p : JoinNode) (prop : requiredProperty) (m m₁ : Memo) (i : physicalPlanInfo)
    (h : joinConvert semiF leftF rightF p prop m = (.returned (some i) none, m₁)) :
    lookupMemo m₁ prop = some i := by
  rcases hl : lookupMemo m prop with _ | j
  · rcases hs : joinStrategyStep semiF leftF rightF p prop with g | info
    · simp only [joinConvert, hl, hs] at h
      rcases joinStrategyStep_inl _ _ _ _ _ _ hs with hg | ⟨e, hg⟩ <;>
        subst hg <;> simp at h
    · simp only [joinConvert, hl, hs] at h
      injection h with h1 h2
      injection h1 with h3 _
      subst h3
      rw [← h2]
      exact lookupMemo_store m prop (some i)
  · simp only [joinConvert, hl] at h
    injection h with h1 h2
    injection h1 with h3 _
    injection h3 with h4
    rw [← h2, hl, h4]

/-- C6 (counterexample): the claim promises that a second
`convert2PhysicalPlan` call with a structurally equal property returns
the identical MEMOIZED info without recomputation — for every logical
node.  For a Projection whose requested sort column maps to a
`ScalarFunction`, the first call returns the `math.MaxFloat64` info but
stores nothing: the memo it leaves behind is unchanged and holds no
entry for the property, so no memoized info exists and a second call
runs the conversion again. -/
theorem c6_counterexample :
    projConvert fixChildConvNone fixProj fixPropC0 [] =
      (.returned (some ⟨none, maxFloat64, 0⟩) none, []) ∧
    lookupMemo ([] : Memo) fixPropC0 = none := ⟨rfl, rfl⟩

/-- C6 (amended): for conversions that store their result on every
non-error path — `DataSource.convert2PhysicalPlan` and
`Join.convert2PhysicalPlan`, the claim's cited code — a first call
returning an info with no error leaves a memo from which a second call
with a structurally equal property returns the identical info, leaves
the memo unchanged, and consults none of the conversion oracles (the
second call's result is the same for every oracle choice, i.e. nothing
is recomputed).  Infeasible-property early returns (Projection, Apply)
are not memoized, see the counterexample. -/
theorem c6_second_call_memoized :
    (∀ (tsF : requiredProperty → GoResult)
       (isF : requiredProperty → IndexInfo → GoResult)
       (avail : List IndexInfo × Bool) (p : DataSourceNode)
       (prop : requiredProperty) (m m₁ : Memo) (i : physicalPlanInfo),
       dsConvert tsF isF avail p prop m = (.returned (some i) none, m₁) →
       ∀ tsF2 isF2 avail2,
         dsConvert tsF2 isF2 avail2 p prop m₁ = (.returned (some i) none, m₁)) ∧
    (∀ (semiF : requiredProperty → GoResult)
       (leftF rightF : requiredProperty → Bool → GoResult)
       (p : JoinNode) (prop : requiredProperty) (m m₁ : Memo)
       (i : physicalPlanInfo),
       joinConvert semiF leftF rightF p prop m = (.returned (some i) none, m₁) →
       ∀ semiF2 leftF2 rightF2,
         joinConvert semiF2 leftF2 rightF2 p prop m₁ =
           (.returned (some i) none, m₁)) := by
  constructor
  · intro tsF isF avail p prop m m₁ i h tsF2 isF2 avail2
    have hl := dsConvert_stores tsF isF avail p prop m m₁ i h
    simp [dsConvert, hl]
  · intro semiF leftF rightF p prop m m₁ i h semiF2 leftF2 rightF2
    have hl := joinConvert_stores semiF leftF rightF p prop m m₁ i h
    simp [joinConvert, hl]

/-- Witness for C6: a DataSource first call (dummy-scan path, which
stores) and a Join first call (semi path, which stores), each followed
by a second call with different oracles returning the identical info and
memo. -/
theorem c6_second_call_memoized_witness :
    dsConvert fixChildConvNone fixIsF ([], true) fixDS emptyProp [] =
      (.returned (some (dummyScanInfo fixDS)) none,
        [(emptyProp, some (dummyScanInfo fixDS))]) ∧
    dsConvert fixErrConv fixIsF ([], false) fixDS emptyProp
        [(emptyProp, some (dummyScanInfo fixDS))] =
      (.returned (some (dummyScanInfo fixDS)) none,
        [(emptyProp, some (dummyScanInfo fixDS))]) ∧
    joinConvert fixLConv fixLRConv fixLRConv fixJoinAux emptyProp [] =
      (.returned (some ⟨none, 0, 100⟩) none, [(emptyProp, some ⟨none, 0, 100⟩)]) ∧
    joinConvert fixErrConv fixLRConv fixLRConv fixJoinAux emptyProp
        [(emptyProp, some ⟨none, 0, 100⟩)] =
      (.returned (some ⟨none, 0, 100⟩) none, [(emptyProp, some ⟨none, 0, 100⟩)]) :=
  ⟨rfl,
    c6_second_call_memoized.1 fixChildConvNone fixIsF ([], true) fixDS emptyProp []
      [(emptyProp, some (dummyScanInfo fixDS))] (dummyScanInfo fixDS) rfl
      fixErrConv fixIsF ([], false),
    rfl,
    c6_second_call_memoized.2 fixLConv fixLRConv fixLRConv fixJoinAux emptyProp []
      [(emptyProp, some ⟨none, 0, 100⟩)] ⟨none, 0, 100⟩ rfl
      fixErrConv fixLRConv fixLRConv⟩

/-! ## C3 — full-range short-circuit -/

/-- If every range before `r` contributes an ordinary estimate and `r`
short-circuits, the estimator loop short-circuits, for every
accumulator. -/
theorem grcLoop_full (tbl : StatsTable) (info : IndexInfo) (r : IndexRange)
    (rest : List IndexRange) (hfull : rangeStep tbl info r = .ok .full) :
    ∀ (pre : List IndexRange),
      (∀ r' ∈ pre, ∃ q, rangeStep tbl info r' = .ok (.contrib q)) →
      ∀ acc, grcLoop tbl info (pre ++ r :: rest) acc = .ok none := by
  intro pre
  induction pre with
  | nil =>
    intro _ acc
    simp [grcLoop, hfull]
  | cons a as ih =>
    intro hpre acc
    obtain ⟨q, hq⟩ := hpre a (List.mem_cons_self _ _)
    have hpre' : ∀ r' ∈ as, ∃ q, rangeStep tbl info r' = .ok (.contrib q) :=
      fun r' hr' => hpre r' (List.mem_cons_of_mem _ hr')
    simp only [List.cons_append, grcLoop, hq]
    exact ih hpre' (acc + q)

/-- C3 (counterexample): a two-dimension range covering `(NULL, +∞)` on
the LEADING (first) dimension does not short-circuit: the code inspects
the LAST bound dimension (`i = len(LowVal)-1`), here an equality `[5,5]`
whose damped estimate (20 rows) is floored to 1000 — not the claimed
full table count of 10000. -/
theorem c3_counterexample :
    fixRangeLeadFull.lowVal.head? = some .null ∧
    fixRangeLeadFull.highVal.head? = some .maxValue ∧
    getRowCountByIndexRanges fixTblC fixIdxTwo [fixRangeLeadFull] = .ok 1000 ∧
    fixTblC.count.toNat = 10000 ∧ (1000 : ℕ) ≠ 10000 := by
  refine ⟨rfl, rfl, ?_, by decide, by decide⟩
  norm_num [getRowCountByIndexRanges, grcLoop, rangeStep, compareDatum, natFloor,
    fixTblC, fixIdxTwo, fixRangeLeadFull, eqStats, zeroStats,
    Datum.isNull, Datum.isMaxValue, Datum.isMinNotNull]
  decide

/-- C3 (amended): if some range covers `(NULL, +∞)` on its LAST bound
dimension and every range before it yields an ordinary estimate,
`getRowCountByIndexRanges` returns the table's total row count. -/
theorem c3_full_range_short_circuit (tbl : StatsTable) (info : IndexInfo)
    (ranges pre rest : List IndexRange) (r : IndexRange)
    (hsplit : ranges = pre ++ r :: rest)
    (hfull : rangeStep tbl info r = .ok .full)
    (hpre : ∀ r' ∈ pre, ∃ q, rangeStep tbl info r' = .ok (.contrib q)) :
    getRowCountByIndexRanges tbl info ranges = .ok tbl.count.toNat := by
  subst hsplit
  have h := grcLoop_full tbl info r rest hfull pre hpre 0
  simp [getRowCountByIndexRanges, h]

/-- Witness for C3: a single one-dimension `(NULL, +∞)` range over the
10000-row table returns the full count. -/
theorem c3_full_range_short_circuit_witness :
    ([fixRangeFull] : List IndexRange) = [] ++ fixRangeFull :: [] ∧
    rangeStep fixTblA fixIdxOne fixRangeFull = .ok .full ∧
    getRowCountByIndexRanges fixTblA fixIdxOne [fixRangeFull] =
      .ok fixTblA.count.toNat :=
  ⟨rfl, rfl,
    c3_full_range_short_circuit fixTblA fixIdxOne [fixRangeFull] [] [] fixRangeFull
      rfl rfl (by intro r' hr'; cases hr')⟩

/-! ## C1 — clamp bounds of the estimator -/

/-- Monotonicity of `natFloor`. -/
theorem natFloor_mono {q r : ℚ} (h : q ≤ r) : natFloor q ≤ natFloor r :=
  Int.toNat_le_toNat (Int.floor_mono h)

/-- Value of `natFloor` on an integer cast. -/
theorem natFloor_intCast (z : ℤ) : natFloor (z : ℚ) = z.toNat := by
  simp [natFloor]

/-- A natural lower bound transfers through `natFloor`. -/
theorem le_natFloor (n : ℕ) (q : ℚ) (h : (n : ℚ) ≤ q) : n ≤ natFloor q := by
  have h1 : (n : ℤ) ≤ ⌊q⌋ := Int.le_floor.mpr (by exact_mod_cast h)
  unfold natFloor
  omega

/-- C1 (counterexample): both claimed bounds fail.  Upper: on the
10000-row table, an equality range estimated at 5000 rows (half the
table) is returned as 5000, strictly above one third of the table
(≈3333): the `count/3` fallback only fires when the raw total EXCEEDS
the table count.  Lower: on the 600-row table a 10-row estimate is
floored to 1000, which then exceeds the table count and is replaced by
`600/3 = 200`, strictly below `min(1000, 600) = 600`. -/
theorem c1_counterexample :
    ((∀ r ∈ [fixRangeEq5], fullLast r = false) ∧
      getRowCountByIndexRanges fixTblA fixIdxOne [fixRangeEq5] = .ok 5000 ∧
      ¬ ((5000 : ℚ) ≤ (fixTblA.count : ℚ) / 3)) ∧
    (getRowCountByIndexRanges fixTblB fixIdxOne [fixRangeEq5] = .ok 200 ∧
      (200 : ℕ) < min 1000 fixTblB.count.toNat) := by
  refine ⟨⟨by decide, ?_, by norm_num [fixTblA]⟩, ?_, by decide⟩
  · norm_num [getRowCountByIndexRanges, grcLoop, rangeStep, compareDatum, natFloor,
      fixTblA, fixIdxOne, fixRangeEq5, eqStats,
      Datum.isNull, Datum.isMaxValue, Datum.isMinNotNull]
    decide
  · norm_num [getRowCountByIndexRanges, grcLoop, rangeStep, compareDatum, natFloor,
      fixTblB, fixIdxOne, fixRangeEq5, eqStats,
      Datum.isNull, Datum.isMaxValue, Datum.isMinNotNull]
    decide

/-- C1 (amended): when no range short-circuits (the loop completes with
raw total `total ≥ 0`) and the table is non-empty, the returned estimate
lies in `[min(1000, ⌊count/3⌋), count]` — the floor is `⌊count/3⌋`
rather than `min(1000, count)` because the 1000-row floor can push the
total above the table count, triggering the `count/3` replacement; the
ceiling is the full count rather than a third of it because the
`count/3` fallback fires only when the raw total exceeds the count. -/
theorem c1_clamp_bounds (tbl : StatsTable) (info : IndexInfo)
    (ranges : List IndexRange) (total : ℚ)
    (hloop : grcLoop tbl info ranges 0 = .ok (some total))
    (_htot : 0 ≤ total) (hcnt : 0 < tbl.count) :
    ∃ n, getRowCountByIndexRanges tbl info ranges = .ok n ∧
      min 1000 (natFloor ((tbl.count : ℚ) / 3)) ≤ n ∧ n ≤ tbl.count.toNat := by
  have hT : (0 : ℚ) < (tbl.count : ℚ) := by exact_mod_cast hcnt
  simp only [getRowCountByIndexRanges, hloop]
  refine ⟨_, rfl, ?_, ?_⟩
  · split_ifs with h1 h2 h2
    · exact min_le_right _ _
    · have : (1000 : ℕ) ≤ natFloor (1000 : ℚ) := le_natFloor 1000 _ (by norm_num)
      exact le_trans (min_le_left _ _) this
    · exact min_le_right _ _
    · have h1000 : (1000 : ℕ) ≤ natFloor total := by
        omega
      exact le_trans (min_le_left _ _) h1000
  · split_ifs with h1 h2 h2
    · calc natFloor ((tbl.count : ℚ) / 3) ≤ natFloor (tbl.count : ℚ) :=
          natFloor_mono (by linarith)
        _ = tbl.count.toNat := natFloor_intCast _
    · have : natFloor (1000 : ℚ) ≤ natFloor (tbl.count : ℚ) :=
        natFloor_mono (by linarith [not_lt.mp h2])
      calc natFloor (1000 : ℚ) ≤ natFloor (tbl.count : ℚ) := this
        _ = tbl.count.toNat := natFloor_intCast _
    · calc natFloor ((tbl.count : ℚ) / 3) ≤ natFloor (tbl.count : ℚ) :=
          natFloor_mono (by linarith)
        _ = tbl.count.toNat := natFloor_intCast _
    · calc natFloor total ≤ natFloor (tbl.count : ℚ) :=
          natFloor_mono (not_lt.mp h2)
        _ = tbl.count.toNat := natFloor_intCast _

/-- Witness for C1 at the 10000-row table and the 5000-row equality
estimate: the returned value lies within the amended bounds. -/
theorem c1_clamp_bounds_witness :
    grcLoop fixTblA fixIdxOne [fixRangeEq5] 0 = .ok (some 5000) ∧
    (0 : ℚ) ≤ 5000 ∧ 0 < fixTblA.count ∧
    (∃ n, getRowCountByIndexRanges fixTblA fixIdxOne [fixRangeEq5] = .ok n ∧
      min 1000 (natFloor ((fixTblA.count : ℚ) / 3)) ≤ n ∧ n ≤ fixTblA.count.toNat) := by
  have hloop : grcLoop fixTblA fixIdxOne [fixRangeEq5] 0 = .ok (some 5000) := by
    norm_num [grcLoop, rangeStep, compareDatum, fixTblA, fixIdxOne, fixRangeEq5,
      eqStats, Datum.isNull, Datum.isMaxValue, Datum.isMinNotNull]
  exact ⟨hloop, by norm_num, by decide,
    c1_clamp_bounds fixTblA fixIdxOne [fixRangeEq5] 5000 hloop (by norm_num) (by decide)⟩

/-! ## C2 — aggregation strategy choice -/

/-- C2 (counterexample): with ordering requested on the group-by column,
the hash strategy is never evaluated and the stream result is returned
regardless of cost: the returned plan costs 1009 while the hash
alternative (computable separately) costs only 50 — the conversion does
NOT return the candidate with the lower cost. -/
theorem c2_counterexample :
    (aggConvert fixLog2 fixAggConv fixAggNode fixPropC0 []).1.costOf = some 1009 ∧
    (aggHash fixAggConv fixAggNode).costOf = some 50 ∧ (50 : ℚ) < 1009 := by
  refine ⟨?_, ?_, by norm_num⟩
  · norm_num [aggConvert, aggStream, aggHash, aggCompleteHash, aggFinalHash,
      aggStreamPropsLoop, aggTailProps, addPlanToResponse, enforceProperty,
      limitProperty, removeLimit, lookupMemo, storePlanInfo, natFloor,
      aggFactor, cpuFactor, memoryFactor, pushSchemaOf, GoResult.costOf,
      fixAggConv, fixAggNode, fixPropC0, emptyProp, getIndex]
  · norm_num [aggHash, aggCompleteHash, aggFinalHash, addPlanToResponse,
      natFloor, aggFactor, memoryFactor, pushSchemaOf, GoResult.costOf,
      fixAggConv, fixAggNode, emptyProp]

/-- C2 (amended): the hash strategy is evaluated ONLY when the required
property has no ordering columns, in which case the strictly cheaper of
the two strategy results wins (the hash result on ties); when ordering
columns are requested, the stream result is returned regardless of the
hash alternative's cost.  Either way the winner is wrapped with limit
enforcement and stored. -/
theorem c2_strategy_choice (log2 : ℚ → ℚ) (childConv : requiredProperty → GoResult)
    (p : AggNode) (prop : requiredProperty) (m : Memo) (s h : physicalPlanInfo)
    (hmiss : lookupMemo m prop = none)
    (hstream : aggStream childConv p (removeLimit prop) = .returned (some s) none)
    (hhash : prop.props = [] → aggHash childConv p = .returned (some h) none) :
    aggConvert log2 childConv p prop m =
      (.returned (some (enforceProperty log2 (limitProperty prop.limit)
          (if prop.props = [] then (if s.cost < h.cost then s else h) else s))) none,
        storePlanInfo m prop (some (enforceProperty log2 (limitProperty prop.limit)
          (if prop.props = [] then (if s.cost < h.cost then s else h) else s)))) := by
  by_cases hp : prop.props = []
  · have hh := hhash hp
    simp only [aggConvert, hmiss, hp, hh, hstream, if_true]
    by_cases hc : s.cost < h.cost <;> simp [hc]
  · simp [aggConvert, hmiss, hstream, hp]

/-- Witness for C2 under the empty property: both strategies are
evaluated (stream cost 1009, hash cost 50) and the hash result wins. -/
theorem c2_strategy_choice_witness :
    lookupMemo ([] : Memo) emptyProp = none ∧
    aggStream fixAggConv fixAggNode (removeLimit emptyProp) =
      .returned (some fixStreamInfo) none ∧
    (emptyProp.props = [] →
      aggHash fixAggConv fixAggNode = .returned (some fixHashInfo) none) ∧
    aggConvert fixLog2 fixAggConv fixAggNode emptyProp [] =
      (.returned (some (enforceProperty fixLog2 (limitProperty emptyProp.limit)
          (if emptyProp.props = [] then
            (if fixStreamInfo.cost < fixHashInfo.cost then fixStreamInfo else fixHashInfo)
          else fixStreamInfo))) none,
        storePlanInfo [] emptyProp (some (enforceProperty fixLog2
          (limitProperty emptyProp.limit)
          (if emptyProp.props = [] then
            (if fixStreamInfo.cost < fixHashInfo.cost then fixStreamInfo else fixHashInfo)
          else fixStreamInfo)))) := by
  have hloop : aggStreamPropsLoop fixAggNode (removeLimit emptyProp).props
      (List.replicate fixAggNode.groupByCols.length false) [] =
      some ([], [false]) := rfl
  have htail : ([] : List columnProp) ++ aggTailProps fixAggNode.groupByCols [false] =
      [⟨fixC0, false⟩] := rfl
  have hcc : fixAggConv ⟨[⟨fixC0, false⟩], 0, none⟩ =
      .returned (some ⟨none, 1000, 10⟩) none := rfl
  have hstream : aggStream fixAggConv fixAggNode (removeLimit emptyProp) =
      .returned (some fixStreamInfo) none := by
    simp only [aggStream, hloop, htail]
    norm_num [hcc, addPlanToResponse, natFloor, aggFactor, cpuFactor, fixAggNode,
      fixStreamInfo, PhysPlan.withChildren]
  have hce : fixAggConv emptyProp = .returned (some ⟨none, 0, 10⟩) none := rfl
  have hhash : aggHash fixAggConv fixAggNode = .returned (some fixHashInfo) none := by
    simp only [aggHash]
    norm_num [hce, aggCompleteHash, aggFinalHash, addPlanToResponse, natFloor,
      aggFactor, memoryFactor, pushSchemaOf, fixAggNode, fixHashInfo,
      PhysPlan.withChildren]
  exact ⟨rfl, hstream, fun _ => hhash,
    c2_strategy_choice fixLog2 fixAggConv fixAggNode emptyProp [] fixStreamInfo
      fixHashInfo rfl hstream (fun _ => hhash)⟩
